import Mathlib

/-!
Shallow embedding of the cb-gateway-api cryptographic envelope layer.

Conventions used throughout this development:

* `Bytes` (`List Nat`, each element a byte value) stands for Node `Buffer`s.
* `Str` (`List Char`) stands for JavaScript strings.
* Fallible functions return `Except` with structured error kinds mirroring the
  `throw new Error(...)` sites of the source, including the `try/catch`
  re-wrapping contexts (a catch block that re-throws with a prefixed message is
  modelled by a wrapping constructor).
* Calls into the external cryptography providers (node `crypto`, `node-forge`)
  are modelled from the spec: the providers are external collaborators whose
  code is not part of the repository.  Provider models are concrete executable
  functions whose doc comments start with `Modelled from the spec:`, or are
  taken as explicit function parameters where only their interface matters.
* Sources of randomness (`crypto.randomBytes`) are passed in as explicit
  arguments: the caller supplies the bytes the generator would have produced.
-/

abbrev Bytes := List Nat

abbrev Str := List Char

/-- Little-endian byte list to natural number. -/
def le2n : Bytes → Nat
  | [] => 0
  | b :: bs => b + 256 * le2n bs

/-- Natural number to little-endian byte list of fixed width `k`. -/
def n2le : Nat → Nat → Bytes
  | 0, _ => []
  | k + 1, n => n % 256 :: n2le k (n / 256)

/-- Big-endian octet-string-to-integer conversion (RFC 8017 OS2IP). -/
def os2ip (bs : Bytes) : Nat := le2n bs.reverse

/-- Big-endian integer-to-octet-string conversion of width `k` (RFC 8017 I2OSP). -/
def i2osp (k n : Nat) : Bytes := (n2le k n).reverse

/-- Lower-case hex digit for a value below 16 (Node hex encoding is lower-case). -/
def hexDigitChar (n : Nat) : Char := if n < 10 then Char.ofNat (48 + n) else Char.ofNat (87 + n)

/-- Value of a hex digit character (either case). -/
def hexVal (c : Char) : Nat :=
  if c.toNat ≤ 57 then c.toNat - 48 else if c.toNat ≤ 70 then c.toNat - 55 else c.toNat - 87

/-- `Buffer.prototype.toString("hex")`: two lower-case hex digits per byte. -/
def hexEncode (bs : Bytes) : Str := (bs.map fun b => [hexDigitChar (b / 16), hexDigitChar (b % 16)]).flatten

/-- `Buffer.from(s, "hex")`: parse consecutive hex digit pairs. -/
def hexDecode : Str → Bytes
  | c1 :: c2 :: rest => (hexVal c1 * 16 + hexVal c2) :: hexDecode rest
  | _ => []

/-- Character of a 6-bit value in the standard base64 alphabet. -/
def b64CharStd (n : Nat) : Char :=
  if n < 26 then Char.ofNat (65 + n)
  else if n < 52 then Char.ofNat (71 + n)
  else if n < 62 then Char.ofNat (n - 4)
  else if n = 62 then '+' else '/'

/-- `Buffer.prototype.toString("base64")`: standard alphabet with `=` padding. -/
def b64EncodeStd : Bytes → Str
  | x :: y :: z :: rest =>
    b64CharStd (x / 4) :: b64CharStd (x % 4 * 16 + y / 16) ::
      b64CharStd (y % 16 * 4 + z / 64) :: b64CharStd (z % 64) :: b64EncodeStd rest
  | [x, y] => [b64CharStd (x / 4), b64CharStd (x % 4 * 16 + y / 16), b64CharStd (y % 16 * 4), '=']
  | [x] => [b64CharStd (x / 4), b64CharStd (x % 4 * 16), '=', '=']
  | [] => []

/-- Character of a 6-bit value in the base64url alphabet. -/
def b64CharUrl (n : Nat) : Char := if n = 62 then '-' else if n = 63 then '_' else b64CharStd n

/-- `Buffer.prototype.toString("base64url")`: url-safe alphabet, no padding. -/
def b64UrlEncode : Bytes → Str
  | x :: y :: z :: rest =>
    b64CharUrl (x / 4) :: b64CharUrl (x % 4 * 16 + y / 16) ::
      b64CharUrl (y % 16 * 4 + z / 64) :: b64CharUrl (z % 64) :: b64UrlEncode rest
  | [x, y] => [b64CharUrl (x / 4), b64CharUrl (x % 4 * 16 + y / 16), b64CharUrl (y % 16 * 4)]
  | [x] => [b64CharUrl (x / 4), b64CharUrl (x % 4 * 16)]
  | [] => []

/-- Value of a base64 alphabet character. -/
def b64Val (c : Char) : Nat :=
  if c.toNat = 43 then 62
  else if c.toNat = 47 then 63
  else if c.toNat ≤ 57 then c.toNat + 4
  else if c.toNat ≤ 90 then c.toNat - 65
  else c.toNat - 71

/-- Regroup 6-bit values into bytes (base64 decoding core). -/
def b64DecodeVals : List Nat → Bytes
  | a :: b :: c :: d :: rest =>
    (a * 4 + b / 16) :: (b % 16 * 16 + c / 4) :: (c % 4 * 64 + d) :: b64DecodeVals rest
  | [a, b, c] => [a * 4 + b / 16, b % 16 * 16 + c / 4]
  | [a, b] => [a * 4 + b / 16]
  | _ => []

/-- `Buffer.from(s, "base64")` on well-formed input: drop padding, regroup bits. -/
def b64Decode (s : Str) : Bytes := b64DecodeVals ((s.filter fun c => !(c == '=')).map b64Val)

/-- UTF-8 encoding of one character. -/
def utf8Char (c : Char) : Bytes :=
  let n := c.toNat
  if n < 128 then [n]
  else if n < 2048 then [192 + n / 64, 128 + n % 64]
  else if n < 65536 then [224 + n / 4096, 128 + n / 64 % 64, 128 + n % 64]
  else [240 + n / 262144, 128 + n / 4096 % 64, 128 + n / 64 % 64, 128 + n % 64]

/-- `Buffer.from(s, "utf8")`. -/
def utf8Str (s : Str) : Bytes := (s.map utf8Char).flatten

/-- JavaScript whitespace (`\s` class and `String.prototype.trim`): the common members. -/
def isJsSpace (c : Char) : Bool :=
  c == ' ' || c == '\t' || c == '\n' || c == '\r' ||
    c.toNat == 11 || c.toNat == 12 || c.toNat == 160 || c.toNat == 65279

/-- `String.prototype.trim`: strip whitespace from both ends. -/
def jsTrim (s : Str) : Str := ((s.dropWhile isJsSpace).reverse.dropWhile isJsSpace).reverse

/-- Character class `[A-Z\s]` of the PEM label capture group. -/
def isLabelChar (c : Char) : Bool := (decide (65 ≤ c.toNat) && decide (c.toNat ≤ 90)) || isJsSpace c

/-- The literal `-----BEGIN ` before the captured label. -/
def beginMark : Str := "-----BEGIN ".data

/-- The five-dash run closing a BEGIN/END delimiter. -/
def dashes5 : Str := "-----".data

/-- The literal `-----END ` before the back-referenced label. -/
def endMark : Str := "-----END ".data

/-- Core of `isValidPEM`: the anchored regex
`^-----BEGIN ([A-Z\s]+)-----[\s\S]+-----END \1-----$` on the trimmed text.
Since the label class excludes `-`, the captured label of any successful match
is exactly the maximal run of label characters after `-----BEGIN `. -/
def pemCore (cs : Str) : Bool :=
  beginMark.isPrefixOf cs &&
  (let rest := cs.drop beginMark.length
   let label := rest.takeWhile isLabelChar
   let after := rest.drop label.length
   !label.isEmpty && dashes5.isPrefixOf after &&
   (let r := after.drop dashes5.length
    let suff := endMark ++ label ++ dashes5
    suff.isSuffixOf r && decide (suff.length < r.length)))

/-- `isValidPEM` from src/libs/util.ts.  `none` stands for a null/undefined
argument; an empty string is falsy in JavaScript and is rejected by the
`!key` guard before the regex runs. -/
def isValidPEM : Option Str → Bool
  | none => false
  | some cs => !cs.isEmpty && pemCore (jsTrim cs)

/-- Declarative reading of the PEM pattern: some label (letters/whitespace,
non-empty) appears identically in both delimiters around a non-empty body. -/
def PemShape (cs : Str) : Prop :=
  ∃ label body, label ≠ [] ∧ (∀ c ∈ label, isLabelChar c = true) ∧ body ≠ [] ∧
    cs = beginMark ++ label ++ dashes5 ++ body ++ endMark ++ label ++ dashes5

/-- `getCbRequestId` from src/libs/util.ts; `rnd` is the output of
`crypto.randomBytes(length)`.  `slice(-length)` keeps the last `length`
characters, except that `slice(-0)` is `slice(0)` and keeps everything. -/
def getCbRequestId (rnd : Bytes) (length : Nat) : Str :=
  let reqId := (b64UrlEncode rnd).filter fun c => !(c == '-' || c == '/' || c == '_')
  if length = 0 then reqId else reqId.drop (reqId.length - length)

/-- Modelled from the spec: one byte of keyed mixing state used by the provider
models below (the providers themselves are external collaborators). -/
def absorb (seed : Nat) (bs : Bytes) : Nat := bs.foldl (fun a b => ((a + b) * 179 + 7) % 256) (seed % 256)

/-- Modelled from the spec: byte `i` of the AES-256-GCM keystream the node
`crypto` provider derives from the key and IV. -/
def keystreamByte (key iv : Bytes) (i : Nat) : Nat := absorb 0 (key ++ iv ++ n2le 8 i)

/-- XOR a byte list against the GCM keystream starting at position `i`
(GCM encryption and decryption are the same keystream XOR). -/
def xorKs (key iv : Bytes) : Nat → Bytes → Bytes
  | _, [] => []
  | i, b :: bs => (b ^^^ keystreamByte key iv i) :: xorKs key iv (i + 1) bs

/-- Modelled from the spec: the 16-byte GCM authentication tag the provider
computes over the key, IV and ciphertext. -/
def gcmTag (key iv ct : Bytes) : Bytes :=
  (List.range 16).map fun j => absorb j (key ++ iv ++ n2le 8 ct.length ++ ct)

/-- `Buffer.prototype.subarray(0, -t)`: all bytes except the last `t`, except
that `-0` is `0` in JavaScript, so `t = 0` yields the empty buffer. -/
def subToNeg (buf : Bytes) (t : Nat) : Bytes := if t = 0 then [] else buf.take (buf.length - t)

/-- `Buffer.prototype.subarray(-t)`: the last `t` bytes, except that `-0` is
`0` in JavaScript, so `t = 0` yields the whole buffer. -/
def subFromNeg (buf : Bytes) (t : Nat) : Bytes := if t = 0 then buf else buf.drop (buf.length - t)

/-- Result record of symmetric `encrypt` (all fields hex strings, as in the source). -/
structure EncResult where
  fullCiphertext : Str
  ciphertext : Str
  iv : Str
  authTag : Str
  deriving DecidableEq

/-- Errors raised inside the `try` block of symmetric `encrypt` (the catch
re-wraps them with the `AES-256-GCM encryption failed` context). -/
inductive EncInner
  | invalidIvLen
  | providerFail
  deriving DecidableEq

/-- Error kinds of symmetric `encrypt`. -/
inductive EncErr
  | emptyInput
  | invalidKey
  | encWrapped (e : EncInner)
  deriving DecidableEq

/-- Provider errors of symmetric `decrypt` other than tag mismatch (the catch
re-wraps them with the `AES-256-GCM decryption failed` context). -/
inductive DecInner
  | emptyIv
  deriving DecidableEq

/-- Error kinds of symmetric `decrypt`.  `authFailure` is the branch whose
message names tampering; `decryptionFailure` wraps the other provider errors. -/
inductive DecErr
  | missingField
  | invalidKey
  | authFailure
  | decryptionFailure (e : DecInner)
  deriving DecidableEq

/-- Argument record of symmetric `decrypt`; `none` fields model null/undefined
(a Buffer, even empty, is truthy in JavaScript, so only null fields trip the
missing-field guard). -/
structure EncryptedData where
  ciphertext : Option Bytes
  iv : Option Bytes
  authTag : Option Bytes
  deriving DecidableEq

/-- Error kinds of `decryptFullCiphertext`.  `fullWrapped` is the catch block
that re-wraps any error thrown by the delegated `decrypt`. -/
inductive FullErr
  | missingInput
  | invalidKey
  | tooShort
  | fullWrapped (e : DecErr)
  deriving DecidableEq

namespace Aes

/-- `encrypt` from src/libs/env.ts (aes-256-gcm module).  `rnd` is the output
of `crypto.randomBytes(6)`, consumed only when `iv` is omitted.  The IV length
check sits inside the `try` block in the source, so its error is wrapped. -/
def encrypt (text key : Bytes) (iv : Option Bytes) (rnd : Bytes) : Except EncErr EncResult :=
  if text = [] then .error .emptyInput
  else if key.length ≠ 32 then .error .invalidKey
  else
    let ivChk : Except EncInner Bytes :=
      match iv with
      | none => .ok rnd
      | some v => if v.length < 6 ∨ 16 < v.length then .error .invalidIvLen else .ok v
    match ivChk with
    | .error e => .error (.encWrapped e)
    | .ok ivb =>
      if ivb = [] then .error (.encWrapped .providerFail)
      else
        let ct := xorKs key ivb 0 text
        let tag := gcmTag key ivb ct
        .ok ⟨hexEncode ct ++ hexEncode tag, hexEncode ct, hexEncode ivb, hexEncode tag⟩

/-- `decrypt` from src/libs/env.ts.  The provider rejects an empty IV before
any tag processing; a tag mismatch is the branch whose message contains
`Unsupported state or unable to authenticate data`. -/
def decrypt (encryptedData : EncryptedData) (key : Bytes) : Except DecErr Bytes :=
  match encryptedData.ciphertext, encryptedData.iv, encryptedData.authTag with
  | some ct, some iv, some tag =>
    if key.length ≠ 32 then .error .invalidKey
    else if iv = [] then .error (.decryptionFailure .emptyIv)
    else if tag = gcmTag key iv ct then .ok (xorKs key iv 0 ct)
    else .error .authFailure
  | _, _, _ => .error .missingField

/-- `decryptFullCiphertext` from src/libs/env.ts, with JavaScript
`subarray(0, -tagLength)` / `subarray(-tagLength)` semantics. -/
def decryptFullCiphertext (fullCiphertext iv : Option Bytes) (key : Bytes) (tagLength : Nat) :
    Except FullErr Bytes :=
  match fullCiphertext, iv with
  | some fc, some ivb =>
    if key.length ≠ 32 then .error .invalidKey
    else if fc.length < tagLength then .error .tooShort
    else
      match decrypt ⟨some (subToNeg fc tagLength), some ivb, some (subFromNeg fc tagLength)⟩ key with
      | .ok v => .ok v
      | .error e => .error (.fullWrapped e)
  | _, _ => .error .missingInput

end Aes

/-- Modelled from the spec: the provider's HMAC-SHA256 (node
`crypto.createHmac("sha256", key)` digest over a message). -/
def hmacSha256 (key msg : Bytes) : Bytes :=
  (List.range 32).map fun j => absorb j (key ++ 54 :: msg ++ 92 :: key)

/-- `generateSignature` from src/libs/hmac/index.ts: the HMAC keyed by the
secret over clientId concatenated with nonce, formatted with spaces. -/
def generateSignature (cu sc nonce : Str) : Str :=
  cu ++ ' ' :: nonce ++ ' ' :: b64EncodeStd (hmacSha256 (utf8Str sc) (utf8Str (cu ++ nonce)))

/-- RSA padding schemes of src/libs/rsa/index.ts. -/
inductive RSAPaddingScheme
  | OAEP
  | PKCS1
  deriving DecidableEq

/-- An RSA key as the providers see it after PEM parsing: modulus, public and
private exponents, and modulus length `k` in bytes. -/
structure RsaKey where
  n : Nat
  e : Nat
  d : Nat
  k : Nat
  deriving DecidableEq

/-- Square-and-multiply modular exponentiation, tail-recursive with explicit
fuel, computing `acc * b ^ e % n`.  Scrutinizing the updated base and
accumulator keeps kernel evaluation of concrete instances shallow. -/
def powModTR : Nat → Nat → Nat → Nat → Nat → Nat
  | 0, _, _, acc, n => acc % n
  | f + 1, b, e, acc, n =>
    if e = 0 then acc % n
    else
      match b * b % n, (if e % 2 = 1 then acc * b % n else acc) with
      | 0, acc2 => powModTR f 0 (e / 2) acc2 n
      | b2 + 1, 0 => powModTR f (b2 + 1) (e / 2) 0 n
      | b2 + 1, a2 + 1 => powModTR f (b2 + 1) (e / 2) (a2 + 1) n

/-- Modular exponentiation; `e` itself is always enough fuel. -/
def powMod (b e n : Nat) : Nat := powModTR e b e 1 n

/-- Modelled from the spec: the provider's SHA-256 interface (32-byte digest),
used for the OAEP label hash and mask generation. -/
def modelHash (bs : Bytes) : Bytes := (List.range 32).map fun j => absorb j bs

/-- OAEP label hash of the empty label. -/
def lhash : Bytes := modelHash []

/-- Modelled from the spec: MGF1-style deterministic mask of a given length. -/
def mgf1 (seed : Bytes) (len : Nat) : Bytes := (List.range len).map fun i => absorb (i + 64) seed

/-- Pointwise XOR of two byte lists. -/
def xorB (a b : Bytes) : Bytes := List.zipWith (fun x y => x ^^^ y) a b

/-- Modelled from the spec: RSAES-PKCS1-v1_5 encryption block
`00 02 PS 00 M` (the provider draws the nonzero pad `ps` internally). -/
def pkcs1Pad (ps msg : Bytes) : Bytes := 0 :: 2 :: ps ++ 0 :: msg

/-- Modelled from the spec: RSAES-PKCS1-v1_5 decoding: check the block type,
skip the nonzero pad (at least 8 bytes) up to the zero separator. -/
def pkcs1Unpad (em : Bytes) : Except Str Bytes :=
  match em with
  | 0 :: 2 :: rest =>
    match rest.dropWhile (fun b => !(b == 0)) with
    | 0 :: m =>
      if 8 ≤ (rest.takeWhile fun b => !(b == 0)).length then .ok m
      else .error ("padding too short".data)
    | _ => .error ("zero separator missing".data)
  | _ => .error ("invalid block type".data)

/-- Modelled from the spec: the OAEP data block `lHash . PS . 01 . M`. -/
def oaepDB (kk : Nat) (msg : Bytes) : Bytes :=
  lhash ++ List.replicate (kk - msg.length - 66) 0 ++ 1 :: msg

/-- Modelled from the spec: the OAEP encoded message
`00 . maskedSeed . maskedDB` for a 32-byte random seed. -/
def oaepEM (kk : Nat) (seed msg : Bytes) : Bytes :=
  let db := oaepDB kk msg
  let maskedDB := xorB db (mgf1 seed (kk - 33))
  let maskedSeed := xorB seed (mgf1 maskedDB 32)
  0 :: maskedSeed ++ maskedDB

/-- Modelled from the spec: OAEP decoding: unmask the seed and data block,
check the label hash, skip the zero pad up to the 01 separator. -/
def oaepUnpad (kk : Nat) (em : Bytes) : Except Str Bytes :=
  match em with
  | 0 :: rest =>
    let maskedSeed := rest.take 32
    let maskedDB := rest.drop 32
    let seed := xorB maskedSeed (mgf1 maskedDB 32)
    let db := xorB maskedDB (mgf1 seed (kk - 33))
    if db.take 32 = lhash then
      match (db.drop 32).dropWhile (fun b => b == 0) with
      | 1 :: m => .ok m
      | _ => .error ("oaep decoding error".data)
    else .error ("oaep label mismatch".data)
  | _ => .error ("oaep leading byte".data)

/-- Modelled from the spec: the providers' RSA public-key encryption primitive
(`crypto.publicEncrypt`): pad, convert, exponentiate by `e`. -/
def providerRsaEncrypt (scheme : RSAPaddingScheme) (key : RsaKey) (rnd msg : Bytes) :
    Except Str Bytes :=
  match scheme with
  | .PKCS1 =>
    if msg.length + 11 ≤ key.k then
      .ok (i2osp key.k (powMod (os2ip (pkcs1Pad rnd msg)) key.e key.n))
    else .error ("data too large for key size".data)
  | .OAEP =>
    if msg.length + 66 ≤ key.k then
      .ok (i2osp key.k (powMod (os2ip (oaepEM key.k rnd msg)) key.e key.n))
    else .error ("data too large for key size".data)

/-- Modelled from the spec: the providers' RSA private-key decryption primitive
(`crypto.privateDecrypt`, forge `privateKey.decrypt`): both libraries implement
the same RFC 8017 operation — exponentiate by `d`, convert, unpad. -/
def providerRsaDecrypt (scheme : RSAPaddingScheme) (key : RsaKey) (ct : Bytes) :
    Except Str Bytes :=
  if ct.length = key.k then
    let em := i2osp key.k (powMod (os2ip ct) key.d key.n)
    match scheme with
    | .PKCS1 => pkcs1Unpad em
    | .OAEP => oaepUnpad key.k em
  else .error ("invalid ciphertext length".data)

/-- Error kinds of the asymmetric wrappers in src/libs/rsa/index.ts. -/
inductive RsaErr
  | pubKeyRequired
  | privKeyRequired
  | encryptionFailure (e : Str)
  | nodeFailure (e : Str)
  | forgeFailure (e : Str)
  deriving DecidableEq

namespace Rsa

/-- `encrypt` from src/libs/rsa/index.ts.  `parsePub` is the provider's PEM
public-key parser; `rnd` the randomness the padding scheme consumes.  A Buffer
argument is always truthy, so the `!buffer` guard never fires in the model. -/
def encrypt (parsePub : Str → Except Str RsaKey) (rnd buffer : Bytes) (rsaPublicKey : Str)
    (base64 : Bool) (paddingScheme : RSAPaddingScheme) : Except RsaErr (Str ⊕ Bytes) :=
  if rsaPublicKey = [] then .error .pubKeyRequired
  else
    match parsePub rsaPublicKey with
    | .error e => .error (.encryptionFailure e)
    | .ok key =>
      match providerRsaEncrypt paddingScheme key rnd buffer with
      | .error e => .error (.encryptionFailure e)
      | .ok encryptedBuffer => .ok (if base64 then .inl (b64EncodeStd encryptedBuffer) else .inr encryptedBuffer)

/-- `decryptWithNodeforge` from src/libs/rsa/index.ts.  `parsePem` is forge's
`pki.privateKeyFromPem`; every error thrown inside the `try` is re-wrapped with
the `RSA decryption with node-forge failed` context. -/
def decryptWithNodeforge (parsePem : Str → Except Str RsaKey) (cipherText : Bytes)
    (rsaPrivateKey : Str) (paddingScheme : RSAPaddingScheme) : Except RsaErr Bytes :=
  if rsaPrivateKey = [] then .error .privKeyRequired
  else
    match parsePem rsaPrivateKey with
    | .error e => .error (.forgeFailure e)
    | .ok key =>
      match providerRsaDecrypt paddingScheme key cipherText with
      | .error e => .error (.forgeFailure e)
      | .ok m => .ok m

/-- `decrypt` from src/libs/rsa/index.ts: the PKCS1 scheme is delegated, before
any validation, to `decryptWithNodeforge`; the OAEP scheme takes the node
`crypto.privateDecrypt` path (`parseNode` is node's PEM key parser). -/
def decrypt (parseNode parseForge : Str → Except Str RsaKey) (cipherText : Bytes)
    (rsaPrivateKey : Str) (paddingScheme : RSAPaddingScheme) : Except RsaErr Bytes :=
  if paddingScheme = .PKCS1 then decryptWithNodeforge parseForge cipherText rsaPrivateKey paddingScheme
  else
    if rsaPrivateKey = [] then .error .privKeyRequired
    else
      match parseNode rsaPrivateKey with
      | .error e => .error (.nodeFailure e)
      | .ok key =>
        match providerRsaDecrypt paddingScheme key cipherText with
        | .error e => .error (.nodeFailure e)
        | .ok m => .ok m

end Rsa

/-- Error kinds of `deriveRsaPublicKey`. -/
inductive DeriveErr
  | invalidFormat
  | derivationFailure (e : Str)
  deriving DecidableEq

/-- `deriveRsaPublicKey` from src/libs/util.ts.  `parsePriv` is the provider's
`crypto.createPrivateKey` and `exportSpki` its `createPublicKey` plus SPKI PEM
export (total once a key object exists). -/
def deriveRsaPublicKey (parsePriv : Str → Except Str RsaKey) (exportSpki : RsaKey → Str)
    (privateKeyPem : Option Str) : Except DeriveErr Str :=
  if isValidPEM privateKeyPem then
    match privateKeyPem with
    | some s =>
      match parsePriv s with
      | .ok key => .ok (exportSpki key)
      | .error e => .error (.derivationFailure e)
    | none => .error .invalidFormat
  else .error .invalidFormat

/-- Structured gateway response body of src/index.ts. -/
structure GatewayResponse where
  respCode : Str
  respDesc : Str
  reqRefNo : Str
  respRefNo : Str
  statusCode : Nat
  response : Str
  deriving DecidableEq

/-- Outbound request body of src/index.ts. -/
structure RequestBody where
  wk : Str
  payload : Str
  reqRefNo : Str
  deriving DecidableEq

/-- Terminal failures of the orchestrated run in src/index.ts. -/
inductive ProtoErr
  | encFailed (e : EncErr)
  | businessFailure (r : GatewayResponse)
  | decFailed (e : FullErr)
  deriving DecidableEq

/-- The single-pass orchestration of src/index.ts, from symmetric encryption of
the inner payload to decryption of the gateway response.  `aesKey` is the
session key from `crypto.randomBytes(32)`; `innerJson` the serialized inner
payload; `wrapKey` the RSA-PKCS1 key wrapping step (node `publicEncrypt` under
the configured public key); `res` the parsed transport response. -/
def protocolRun (aesKey : Bytes) (reqRefNo innerJson : Str) (wrapKey : Bytes → Bytes)
    (encRnd : Bytes) (res : GatewayResponse) : Except ProtoErr (RequestBody × Bytes) :=
  match Aes.encrypt (utf8Str innerJson) aesKey (some (utf8Str reqRefNo)) encRnd with
  | .error e => .error (.encFailed e)
  | .ok enc =>
    let requestBody : RequestBody :=
      ⟨b64EncodeStd (wrapKey aesKey), b64EncodeStd (hexDecode enc.fullCiphertext), reqRefNo⟩
    if res.respCode = ("0000".data) then
      match Aes.decryptFullCiphertext (some (b64Decode res.response)) (some (utf8Str res.respRefNo)) aesKey 16 with
      | .error e => .error (.decFailed e)
      | .ok plain => .ok (requestBody, plain)
    else .error (.businessFailure res)

/-- Concrete gateway response used to exercise `protocolRun`. -/
def resW : GatewayResponse := ⟨"0000".data, [], "R1".data, "ABCDEF".data, 200, []⟩

/-- The encryption record `protocolRun` produces for the concrete run below. -/
def encW : EncResult :=
  match Aes.encrypt (utf8Str ("x".data)) (List.replicate 32 0) (some (utf8Str ("ABCDEF".data))) [] with
  | .ok enc => enc
  | .error _ => ⟨[], [], [], []⟩

/-- A concrete 768-bit RSA key (real modulus and exponent pair) used to
exercise the asymmetric theorems. -/
def keyW : RsaKey :=
  ⟨837759022848001400666935415496679264282224341078020191781222279929661333194109223330206815507240536503788118401082114679869529359054937827005282468354208802449340516920726181635366800695956665563212451150778093954758143571333293999,
   65537,
   348272648694535882954219073122160406417278822232794606483046233679961289391847441744838559721909278988139635409577500226662602901365477889583126569768139014368520270663497491617138163367634464628039480909884874857626692867379753473,
   96⟩

/-- A concrete PEM parser model that always yields `keyW`. -/
def parseW : Str → Except Str RsaKey := fun _ => .ok keyW

theorem absorbAux_lt (bs : Bytes) :
    ∀ a, a < 256 → bs.foldl (fun a b => ((a + b) * 179 + 7) % 256) a < 256 := by
  induction bs with
  | nil => intro a ha; simpa using ha
  | cons b bs ih =>
    intro a _
    simp only [List.foldl_cons]
    exact ih _ (Nat.mod_lt _ (by norm_num))

theorem absorb_lt (seed : Nat) (bs : Bytes) : absorb seed bs < 256 :=
  absorbAux_lt bs _ (Nat.mod_lt _ (by norm_num))

theorem keystreamByte_lt (key iv : Bytes) (i : Nat) : keystreamByte key iv i < 256 :=
  absorb_lt 0 _

theorem xorKs_xorKs (key iv : Bytes) : ∀ i bs, xorKs key iv i (xorKs key iv i bs) = bs := by
  intro i bs
  induction bs generalizing i with
  | nil => rfl
  | cons b bs ih =>
    simp only [xorKs, ih]
    rw [Nat.xor_assoc, Nat.xor_self, Nat.xor_zero]

theorem xorKs_lt (key iv : Bytes) :
    ∀ i bs, (∀ b ∈ bs, b < 256) → ∀ b ∈ xorKs key iv i bs, b < 256 := by
  intro i bs
  induction bs generalizing i with
  | nil => intro _ b hb; simp [xorKs] at hb
  | cons c cs ih =>
    intro h b hb
    simp only [xorKs, List.mem_cons] at hb
    rcases hb with hb | hb
    · subst hb
      have h1 : c < 2 ^ 8 := h c (by simp)
      have h2 : keystreamByte key iv i < 2 ^ 8 := keystreamByte_lt key iv i
      simpa using Nat.xor_lt_two_pow h1 h2
    · exact ih (i + 1) (fun x hx => h x (by simp [hx])) b hb

theorem gcmTag_mem_lt (key iv ct : Bytes) : ∀ b ∈ gcmTag key iv ct, b < 256 := by
  intro b hb
  simp only [gcmTag, List.mem_map] at hb
  obtain ⟨j, _, hj⟩ := hb
  exact hj ▸ absorb_lt j _

theorem gcmTag_length (key iv ct : Bytes) : (gcmTag key iv ct).length = 16 := by
  simp [gcmTag]

theorem hexVal_hexDigitChar : ∀ n, n < 16 → hexVal (hexDigitChar n) = n := by decide

theorem hexEncode_cons (b : Nat) (bs : Bytes) :
    hexEncode (b :: bs) = hexDigitChar (b / 16) :: hexDigitChar (b % 16) :: hexEncode bs := by
  simp [hexEncode]

theorem hexDecode_hexEncode (bs : Bytes) (h : ∀ b ∈ bs, b < 256) :
    hexDecode (hexEncode bs) = bs := by
  induction bs with
  | nil => rfl
  | cons b bs ih =>
    have hb : b < 256 := h b (by simp)
    rw [hexEncode_cons]
    simp only [hexDecode]
    rw [hexVal_hexDigitChar _ (by omega), hexVal_hexDigitChar _ (by omega),
      ih (fun x hx => h x (by simp [hx]))]
    congr 1
    omega

/-- C1: AES-256-GCM round-trip.  For every 32-byte key, IV of 6 to 16 bytes and
non-empty plaintext, decrypting the hex-decoded ciphertext, IV and auth tag of
`encrypt` with the same key returns exactly the plaintext. -/
theorem aes_gcm_roundtrip (key iv p rnd : Bytes) (hk : key.length = 32)
    (hiv1 : 6 ≤ iv.length) (hiv2 : iv.length ≤ 16) (hivb : ∀ b ∈ iv, b < 256)
    (hp : p ≠ []) (hpb : ∀ b ∈ p, b < 256) :
    ∃ out, Aes.encrypt p key (some iv) rnd = .ok out ∧
      Aes.decrypt ⟨some (hexDecode out.ciphertext), some (hexDecode out.iv),
        some (hexDecode out.authTag)⟩ key = .ok p := by
  have hivne : iv ≠ [] := by
    intro h
    rw [h] at hiv1
    simp at hiv1
  have hrange : ¬(iv.length < 6 ∨ 16 < iv.length) := by omega
  have henc : Aes.encrypt p key (some iv) rnd =
      .ok ⟨hexEncode (xorKs key iv 0 p) ++ hexEncode (gcmTag key iv (xorKs key iv 0 p)),
        hexEncode (xorKs key iv 0 p), hexEncode iv, hexEncode (gcmTag key iv (xorKs key iv 0 p))⟩ := by
    unfold Aes.encrypt
    simp [hp, hk, hrange, hivne]
  refine ⟨_, henc, ?_⟩
  have hct : ∀ b ∈ xorKs key iv 0 p, b < 256 := xorKs_lt key iv 0 p hpb
  have htg : ∀ b ∈ gcmTag key iv (xorKs key iv 0 p), b < 256 := gcmTag_mem_lt key iv _
  unfold Aes.decrypt
  simp only [hexDecode_hexEncode _ hct, hexDecode_hexEncode _ hivb, hexDecode_hexEncode _ htg]
  simp [hk, hivne, xorKs_xorKs]

/-- Witness for C1 at a concrete key, IV and plaintext. -/
theorem aes_gcm_roundtrip_witness :
    ∃ out, Aes.encrypt [104, 105] (List.replicate 32 0) (some (List.replicate 6 0)) [] = .ok out ∧
      Aes.decrypt ⟨some (hexDecode out.ciphertext), some (hexDecode out.iv),
        some (hexDecode out.authTag)⟩ (List.replicate 32 0) = .ok [104, 105] :=
  aes_gcm_roundtrip (List.replicate 32 0) (List.replicate 6 0) [104, 105] []
    (by decide) (by decide) (by decide) (by decide) (by decide) (by decide)

/-- C4: symmetric `encrypt` validation: empty plaintext is rejected first, a
non-32-byte key next, an explicit IV outside 6..16 bytes fails with the IV
length error (wrapped by the encryption-failed context, as in the source); with
the IV omitted, the generated random 6-byte IV is used and encryption succeeds
on a valid key and non-empty plaintext. -/
theorem aes_encrypt_validation :
    (∀ key iv rnd, Aes.encrypt [] key iv rnd = .error .emptyInput) ∧
    (∀ text key iv rnd, text ≠ [] → key.length ≠ 32 →
      Aes.encrypt text key iv rnd = .error .invalidKey) ∧
    (∀ text key v rnd, text ≠ [] → key.length = 32 → (v.length < 6 ∨ 16 < v.length) →
      Aes.encrypt text key (some v) rnd = .error (.encWrapped .invalidIvLen)) ∧
    (∀ text key rnd, text ≠ [] → key.length = 32 → rnd.length = 6 →
      ∃ out, Aes.encrypt text key none rnd = .ok out ∧ out.iv = hexEncode rnd) := by
  refine ⟨?_, ?_, ?_, ?_⟩
  · intro key iv rnd
    unfold Aes.encrypt
    simp
  · intro text key iv rnd ht hkey
    unfold Aes.encrypt
    simp [ht, hkey]
  · intro text key v rnd ht hk hv
    unfold Aes.encrypt
    simp [ht, hk, hv]
  · intro text key rnd ht hk hrnd
    have hne : rnd ≠ [] := by
      intro h
      rw [h] at hrnd
      simp at hrnd
    unfold Aes.encrypt
    simp [ht, hk, hne]

/-- Witness for C4: a successful encryption with generated IV at concrete inputs. -/
theorem aes_encrypt_validation_witness :
    ∃ out, Aes.encrypt [1] (List.replicate 32 0) none (List.replicate 6 7) = .ok out ∧
      out.iv = hexEncode (List.replicate 6 7) :=
  aes_encrypt_validation.2.2.2 [1] (List.replicate 32 0) (List.replicate 6 7)
    (by decide) (by decide) (by decide)

/-- C5: symmetric `decrypt` fails with the authentication-failure kind exactly
when the tag does not verify, never returns plaintext on a mismatched tag, and
the kind is distinct from the generic decryption failure, invalid key and
missing field kinds. -/
theorem aes_decrypt_auth (ct iv tag key : Bytes) (hk : key.length = 32) (hiv : iv ≠ [])
    (htag : tag.length = 16) :
    (Aes.decrypt ⟨some ct, some iv, some tag⟩ key = .error .authFailure ↔ tag ≠ gcmTag key iv ct) ∧
    (∀ v, Aes.decrypt ⟨some ct, some iv, some tag⟩ key = .ok v →
      tag = gcmTag key iv ct ∧ v = xorKs key iv 0 ct) ∧
    (DecErr.authFailure ≠ DecErr.decryptionFailure DecInner.emptyIv ∧
      DecErr.authFailure ≠ DecErr.invalidKey ∧ DecErr.authFailure ≠ DecErr.missingField) := by
  unfold Aes.decrypt
  by_cases h : tag = gcmTag key iv ct <;> simp [hk, hiv, h]

/-- Witness for C5 at a concrete mismatched tag. -/
theorem aes_decrypt_auth_witness :
    Aes.decrypt ⟨some [], some (List.replicate 6 0), some (List.replicate 16 0)⟩
      (List.replicate 32 0) = .error .authFailure ↔
      List.replicate 16 0 ≠ gcmTag (List.replicate 32 0) (List.replicate 6 0) [] :=
  (aes_decrypt_auth [] (List.replicate 6 0) (List.replicate 16 0) (List.replicate 32 0)
    (by decide) (by decide) (by decide)).1

/-- C3 (amended): for a 32-byte key and a positive tag length, a too-short full
ciphertext fails with the too-short error; otherwise the outcome corresponds
exactly to `decrypt` on the split into all-but-last-`tagLength` bytes and the
last `tagLength` bytes, with a delegated failure re-wrapped by the
full-ciphertext context. -/
theorem decryptFull_split (full iv key : Bytes) (tl : Nat) (hk : key.length = 32)
    (htl : 1 ≤ tl) :
    (full.length < tl → Aes.decryptFullCiphertext (some full) (some iv) key tl = .error .tooShort) ∧
    (tl ≤ full.length →
      (∀ v, Aes.decryptFullCiphertext (some full) (some iv) key tl = .ok v ↔
        Aes.decrypt ⟨some (full.take (full.length - tl)), some iv,
          some (full.drop (full.length - tl))⟩ key = .ok v) ∧
      (∀ e, Aes.decryptFullCiphertext (some full) (some iv) key tl = .error (.fullWrapped e) ↔
        Aes.decrypt ⟨some (full.take (full.length - tl)), some iv,
          some (full.drop (full.length - tl))⟩ key = .error e)) := by
  have ht0 : tl ≠ 0 := by omega
  constructor
  · intro hlt
    unfold Aes.decryptFullCiphertext
    simp [hk, hlt]
  · intro hge
    have hnlt : ¬ full.length < tl := by omega
    unfold Aes.decryptFullCiphertext
    simp only [subToNeg, subFromNeg, if_neg ht0]
    cases h : Aes.decrypt ⟨some (full.take (full.length - tl)), some iv,
        some (full.drop (full.length - tl))⟩ key <;> simp [hk, hnlt, h]

/-- Witness for C3's amended theorem at a concrete key and tag length. -/
theorem decryptFull_split_witness :
    (∀ v, Aes.decryptFullCiphertext (some (List.replicate 20 0)) (some (List.replicate 6 0))
        (List.replicate 32 0) 16 = .ok v ↔
      Aes.decrypt ⟨some ((List.replicate 20 0 : Bytes).take 4), some (List.replicate 6 0),
        some ((List.replicate 20 0 : Bytes).drop 4)⟩ (List.replicate 32 0) = .ok v) ∧
    (∀ e, Aes.decryptFullCiphertext (some (List.replicate 20 0)) (some (List.replicate 6 0))
        (List.replicate 32 0) 16 = .error (.fullWrapped e) ↔
      Aes.decrypt ⟨some ((List.replicate 20 0 : Bytes).take 4), some (List.replicate 6 0),
        some ((List.replicate 20 0 : Bytes).drop 4)⟩ (List.replicate 32 0) = .error e) :=
  (decryptFull_split (List.replicate 20 0) (List.replicate 6 0) (List.replicate 32 0) 16
    (by decide) (by decide)).2 (by decide)

set_option maxRecDepth 4000 in
/-- Counterexample for C3 as frozen: with `tagLength = 0`, JavaScript's
`subarray(0, -0)` is empty and `subarray(-0)` is the whole buffer, so the code
treats the whole buffer as the tag over an empty ciphertext — the opposite of
the claimed split.  Choosing the buffer equal to the tag of the empty
ciphertext makes the code succeed while the claimed delegation fails. -/
theorem decryptFull_tagLenZero_cex :
    Aes.decryptFullCiphertext (some (gcmTag (List.replicate 32 0) (List.replicate 6 0) []))
      (some (List.replicate 6 0)) (List.replicate 32 0) 0 = .ok [] ∧
    Aes.decrypt ⟨some (gcmTag (List.replicate 32 0) (List.replicate 6 0) []),
      some (List.replicate 6 0), some ([] : Bytes)⟩ (List.replicate 32 0) ≠ .ok [] := by
  constructor
  · rfl
  · intro h
    have h2 : Aes.decrypt ⟨some (gcmTag (List.replicate 32 0) (List.replicate 6 0) []),
        some (List.replicate 6 0), some ([] : Bytes)⟩ (List.replicate 32 0) =
        .error .authFailure := by rfl
    rw [h2] at h
    exact Except.noConfusion h

theorem isPrefixOf_iff {α : Type} [DecidableEq α] (l₁ l₂ : List α) :
    l₁.isPrefixOf l₂ = true ↔ ∃ t, l₂ = l₁ ++ t := by
  induction l₁ generalizing l₂ with
  | nil => simp [List.isPrefixOf]
  | cons a as ih =>
    cases l₂ with
    | nil => simp [List.isPrefixOf]
    | cons b bs =>
      simp only [List.isPrefixOf, Bool.and_eq_true, beq_iff_eq, ih]
      constructor
      · rintro ⟨rfl, t, rfl⟩
        exact ⟨t, rfl⟩
      · rintro ⟨t, h⟩
        injection h with h1 h2
        exact ⟨h1.symm, t, h2⟩

theorem isSuffixOf_iff {α : Type} [DecidableEq α] (l₁ l₂ : List α) :
    l₁.isSuffixOf l₂ = true ↔ ∃ t, l₂ = t ++ l₁ := by
  simp only [List.isSuffixOf, isPrefixOf_iff]
  constructor
  · rintro ⟨t, ht⟩
    refine ⟨t.reverse, ?_⟩
    rw [← List.reverse_reverse l₂, ht]
    simp
  · rintro ⟨t, rfl⟩
    exact ⟨t.reverse, by simp⟩

theorem takeWhile_append_run {α : Type} (p : α → Bool) (l r : List α)
    (h : ∀ c ∈ l, p c = true) : (l ++ r).takeWhile p = l ++ r.takeWhile p := by
  induction l with
  | nil => rfl
  | cons a as ih =>
    have ha : p a = true := h a (by simp)
    simp [List.takeWhile_cons, ha, ih fun c hc => h c (by simp [hc])]

theorem dropWhile_append_run {α : Type} (p : α → Bool) (l r : List α)
    (h : ∀ c ∈ l, p c = true) : (l ++ r).dropWhile p = r.dropWhile p := by
  induction l with
  | nil => rfl
  | cons a as ih =>
    simp only [List.cons_append, List.dropWhile_cons, h a (by simp)]
    exact ih fun c hc => h c (by simp [hc])

theorem dropWhile_run_nil {α : Type} (p : α → Bool) (l : List α)
    (h : ∀ c ∈ l, p c = true) : l.dropWhile p = [] := by
  have := dropWhile_append_run p l [] h
  simpa using this

theorem jsTrim_pad (ws1 ws2 cs : Str) (h1 : ∀ c ∈ ws1, isJsSpace c = true)
    (h2 : ∀ c ∈ ws2, isJsSpace c = true) : jsTrim (ws1 ++ cs ++ ws2) = jsTrim cs := by
  unfold jsTrim
  rw [List.append_assoc, dropWhile_append_run _ ws1 _ h1]
  by_cases hc : (cs.dropWhile isJsSpace).isEmpty
  · have hcs : cs.dropWhile isJsSpace = [] := by
      cases h : cs.dropWhile isJsSpace
      · rfl
      · rw [h] at hc
        simp at hc
    rw [List.dropWhile_append, hcs]
    simp [dropWhile_run_nil _ ws2 h2]
  · rw [List.dropWhile_append, if_neg hc, List.reverse_append,
      dropWhile_append_run _ ws2.reverse _ (fun c hcm => h2 c (by simpa using hcm))]

theorem drop_takeWhile_len {α : Type} (p : α → Bool) (l : List α) :
    l.drop (l.takeWhile p).length = l.dropWhile p := by
  induction l with
  | nil => rfl
  | cons a l ih =>
    cases hpa : p a
    · simp [List.takeWhile_cons, List.dropWhile_cons, hpa]
    · simp [List.takeWhile_cons, List.dropWhile_cons, hpa, ih]

theorem takeWhile_dashes (x : Str) : (dashes5 ++ x).takeWhile isLabelChar = [] := by
  have h0 : dashes5 ++ x = '-' :: ("----".data ++ x) := rfl
  have hd : isLabelChar '-' = false := by decide
  rw [h0, List.takeWhile_cons, hd]
  simp

theorem pemCore_iff (cs : Str) : pemCore cs = true ↔ PemShape cs := by
  constructor
  · intro h
    unfold pemCore at h
    simp only [Bool.and_eq_true, Bool.not_eq_true', decide_eq_true_eq] at h
    obtain ⟨hpre, ⟨hlab, hdash⟩, hsuf, hlen⟩ := h
    obtain ⟨t, rfl⟩ := (isPrefixOf_iff _ _).mp hpre
    rw [List.drop_left] at hlab hdash hsuf hlen
    rw [drop_takeWhile_len] at hdash hsuf hlen
    obtain ⟨u, hu⟩ := (isPrefixOf_iff _ _).mp hdash
    rw [hu, List.drop_left] at hsuf hlen
    obtain ⟨w, hw⟩ := (isSuffixOf_iff _ _).mp hsuf
    have hwne : w ≠ [] := by
      intro h0
      rw [h0, List.nil_append] at hw
      rw [hw] at hlen
      exact absurd hlen (lt_irrefl _)
    refine ⟨t.takeWhile isLabelChar, w, ?_, ?_, hwne, ?_⟩
    · intro h0
      rw [h0] at hlab
      simp at hlab
    · intro c hc
      exact List.mem_takeWhile_imp hc
    · have ht : t = t.takeWhile isLabelChar ++
          (dashes5 ++ (w ++ (endMark ++ t.takeWhile isLabelChar ++ dashes5))) := by
        conv_lhs => rw [← List.takeWhile_append_dropWhile isLabelChar t]
        rw [hu, hw]
      conv_lhs => rw [ht]
      simp [List.append_assoc]
  · rintro ⟨label, body, hlne, hlchars, hbne, rfl⟩
    unfold pemCore
    simp only [Bool.and_eq_true, Bool.not_eq_true', decide_eq_true_eq]
    have hcs : beginMark ++ label ++ dashes5 ++ body ++ endMark ++ label ++ dashes5 =
        beginMark ++ (label ++ (dashes5 ++ (body ++ (endMark ++ label ++ dashes5)))) := by
      simp [List.append_assoc]
    refine ⟨?_, ⟨?_, ?_⟩, ?_, ?_⟩
    · exact (isPrefixOf_iff _ _).mpr ⟨_, hcs⟩
    · rw [hcs, List.drop_left, takeWhile_append_run _ _ _ hlchars, takeWhile_dashes]
      cases label
      · exact absurd rfl hlne
      · simp
    · rw [hcs, List.drop_left, takeWhile_append_run _ _ _ hlchars, takeWhile_dashes,
        List.append_nil, List.drop_left]
      exact (isPrefixOf_iff _ _).mpr ⟨_, rfl⟩
    · rw [hcs, List.drop_left, takeWhile_append_run _ _ _ hlchars, takeWhile_dashes,
        List.append_nil, List.drop_left, List.drop_left]
      exact (isSuffixOf_iff _ _).mpr ⟨body, rfl⟩
    · rw [hcs, List.drop_left, takeWhile_append_run _ _ _ hlchars, takeWhile_dashes,
        List.append_nil, List.drop_left, List.drop_left]
      have hb : 0 < body.length := List.length_pos.mpr hbne
      simp [List.length_append]
      omega

theorem isValidPEM_ne (cs : Str) (h : cs ≠ []) : isValidPEM (some cs) = pemCore (jsTrim cs) := by
  cases cs with
  | nil => exact absurd rfl h
  | cons a l => simp [isValidPEM]

theorem pemShape_ne (cs : Str) (h : PemShape cs) : cs ≠ [] := by
  obtain ⟨l, b, _, _, _, rfl⟩ := h
  intro h0
  have hb : beginMark = [] := by
    have h1 := List.append_eq_nil.mp h0
    have h2 := List.append_eq_nil.mp h1.1
    have h3 := List.append_eq_nil.mp h2.1
    have h4 := List.append_eq_nil.mp h3.1
    have h5 := List.append_eq_nil.mp h4.1
    have h6 := List.append_eq_nil.mp h5.1
    exact h6.1
  exact absurd hb (by decide)

/-- C2: `isValidPEM` returns true exactly when the trimmed input has the
BEGIN/END shape with an identical letters-and-whitespace label and a non-empty
body; it returns false for a null and for an empty argument, and surrounding
whitespace does not change the verdict. -/
theorem isValidPEM_spec :
    (∀ cs : Str, isValidPEM (some cs) = true ↔ PemShape (jsTrim cs)) ∧
    isValidPEM none = false ∧
    (∀ ws1 ws2 cs : Str, (∀ c ∈ ws1, isJsSpace c = true) → (∀ c ∈ ws2, isJsSpace c = true) →
      isValidPEM (some (ws1 ++ cs ++ ws2)) = isValidPEM (some cs)) := by
  refine ⟨?_, rfl, ?_⟩
  · intro cs
    by_cases hcs : cs = []
    · subst hcs
      constructor
      · intro h
        exact absurd h (by decide)
      · intro hshape
        exact absurd rfl (pemShape_ne _ hshape)
    · rw [isValidPEM_ne _ hcs, pemCore_iff]
  · intro ws1 ws2 cs h1 h2
    have htr : jsTrim (ws1 ++ cs ++ ws2) = jsTrim cs := jsTrim_pad ws1 ws2 cs h1 h2
    by_cases hall : ws1 ++ cs ++ ws2 = []
    · obtain ⟨h12, hw2⟩ := List.append_eq_nil.mp hall
      obtain ⟨hw1, hcs⟩ := List.append_eq_nil.mp h12
      subst hw1
      subst hcs
      subst hw2
      rfl
    · by_cases hcs : cs = []
      · subst hcs
        have hpc : pemCore ([] : Str) = false := by decide
        have htr0 : jsTrim (ws1 ++ [] ++ ws2) = [] := htr
        rw [isValidPEM_ne _ hall, htr0, hpc]
        rfl
      · rw [isValidPEM_ne _ hall, isValidPEM_ne _ hcs, htr]

/-- Witness for C2: whitespace padding around a concrete valid PEM. -/
theorem isValidPEM_spec_witness :
    isValidPEM (some ([' '] ++ ("-----BEGIN A-----b-----END A-----".data) ++ [' '])) =
      isValidPEM (some ("-----BEGIN A-----b-----END A-----".data)) :=
  isValidPEM_spec.2.2 [' '] [' '] ("-----BEGIN A-----b-----END A-----".data)
    (by decide) (by decide)

theorem utf8Str_append (a b : Str) : utf8Str (a ++ b) = utf8Str a ++ utf8Str b := by
  simp [utf8Str]

/-- C6: `generateSignature` is exactly the client id, a space, the nonce, a
space, and the base64 HMAC-SHA256 of clientId concatenated with nonce keyed
directly by the secret; it is deterministic. -/
theorem generateSignature_spec (cu sc nonce : Str) :
    generateSignature cu sc nonce =
      cu ++ ' ' :: (nonce ++ ' ' :: b64EncodeStd (hmacSha256 (utf8Str sc) (utf8Str cu ++ utf8Str nonce))) ∧
    generateSignature cu sc nonce = generateSignature cu sc nonce := by
  refine ⟨?_, rfl⟩
  unfold generateSignature
  rw [utf8Str_append]
  simp [List.append_assoc]

/-- C10: `getCbRequestId` output never contains a dash, underscore or slash,
and when the stripped base64url encoding has fewer than `length` characters the
result is exactly that shorter remainder; a concrete six-byte draw whose
encoding is all dashes yields an empty identifier for requested length 6. -/
theorem getCbRequestId_spec :
    (∀ rnd len c, c ∈ getCbRequestId rnd len → ¬(c = '-' ∨ c = '_' ∨ c = '/')) ∧
    (∀ rnd len,
      ((b64UrlEncode rnd).filter fun c => !(c == '-' || c == '/' || c == '_')).length < len →
      (getCbRequestId rnd len).length =
        ((b64UrlEncode rnd).filter fun c => !(c == '-' || c == '/' || c == '_')).length) ∧
    getCbRequestId [251, 239, 190, 251, 239, 190] 6 = [] := by
  refine ⟨?_, ?_, ?_⟩
  · intro rnd len c hc
    simp only [getCbRequestId] at hc
    have hc' : c ∈ (b64UrlEncode rnd).filter fun c => !(c == '-' || c == '/' || c == '_') := by
      by_cases h0 : len = 0
      · simpa [h0] using hc
      · rw [if_neg h0] at hc
        exact List.mem_of_mem_drop hc
    rw [List.mem_filter] at hc'
    have hb := hc'.2
    simp only [Bool.not_eq_true', Bool.or_eq_false_iff, beq_eq_false_iff_ne, ne_eq] at hb
    rintro (rfl | rfl | rfl)
    · exact hb.1.1 rfl
    · exact hb.2 rfl
    · exact hb.1.2 rfl
  · intro rnd len h
    have h0 : len ≠ 0 := by
      intro h0
      rw [h0] at h
      omega
    simp only [getCbRequestId, if_neg h0]
    rw [List.length_drop]
    omega
  · rfl

/-- Witness for C10: the all-dashes encoding leaves an identifier shorter than
requested. -/
theorem getCbRequestId_spec_witness : getCbRequestId [251, 239, 190, 251, 239, 190] 6 = [] :=
  getCbRequestId_spec.2.2

/-- C8: `deriveRsaPublicKey` fails with the invalid-format error exactly when
`isValidPEM` rejects the input; on accepted input it returns the provider's
SPKI export of the parsed key, or wraps the provider's parse error in the
derivation-failure kind. -/
theorem deriveRsaPublicKey_spec (parsePriv : Str → Except Str RsaKey) (exportSpki : RsaKey → Str)
    (pem : Option Str) :
    (deriveRsaPublicKey parsePriv exportSpki pem = .error .invalidFormat ↔ isValidPEM pem = false) ∧
    (∀ s, pem = some s → isValidPEM pem = true →
      deriveRsaPublicKey parsePriv exportSpki pem =
        match parsePriv s with
        | .ok key => .ok (exportSpki key)
        | .error e => .error (.derivationFailure e)) := by
  constructor
  · constructor
    · intro h
      cases hv2 : isValidPEM pem
      · rfl
      · exfalso
        unfold deriveRsaPublicKey at h
        rw [hv2] at h
        simp only [if_true] at h
        cases pem with
        | none => exact absurd hv2 (by decide)
        | some s =>
          have h2 : (match parsePriv s with
              | Except.ok key => (Except.ok (exportSpki key) : Except DeriveErr Str)
              | Except.error e => Except.error (DeriveErr.derivationFailure e)) =
              Except.error DeriveErr.invalidFormat := h
          cases hp : parsePriv s <;> rw [hp] at h2 <;> simp at h2
    · intro h
      unfold deriveRsaPublicKey
      simp [h]
  · intro s hs hv
    subst hs
    unfold deriveRsaPublicKey
    simp [hv]

/-- Witness for C8 at a concrete parser, exporter and valid PEM. -/
theorem deriveRsaPublicKey_spec_witness :
    deriveRsaPublicKey (fun _ => .ok ⟨1, 1, 1, 1⟩) (fun _ => [])
        (some ("-----BEGIN A-----b-----END A-----".data)) =
      match (fun (_ : Str) => (.ok ⟨1, 1, 1, 1⟩ : Except Str RsaKey)) ("-----BEGIN A-----b-----END A-----".data) with
      | .ok key => .ok ((fun (_ : RsaKey) => ([] : Str)) key)
      | .error e => .error (.derivationFailure e) :=
  (deriveRsaPublicKey_spec (fun _ => .ok ⟨1, 1, 1, 1⟩) (fun _ => [])
    (some ("-----BEGIN A-----b-----END A-----".data))).2
    ("-----BEGIN A-----b-----END A-----".data) rfl (by decide)

/-- C9: in every orchestrated run, the session key passed in at key generation
is the one used both for the outbound AES-GCM encryption (whose IV is the UTF-8
bytes of the request reference number) and for splitting/decrypting the
response via `decryptFullCiphertext` (whose IV is the UTF-8 bytes of the
response reference number); the request body carries that same encryption's
full ciphertext. -/
theorem protocolRun_spec (aesKey : Bytes) (reqRefNo innerJson : Str) (wrapKey : Bytes → Bytes)
    (encRnd : Bytes) (res : GatewayResponse) (enc : EncResult)
    (hcode : res.respCode = ("0000".data))
    (henc : Aes.encrypt (utf8Str innerJson) aesKey (some (utf8Str reqRefNo)) encRnd = .ok enc) :
    protocolRun aesKey reqRefNo innerJson wrapKey encRnd res =
      match Aes.decryptFullCiphertext (some (b64Decode res.response))
          (some (utf8Str res.respRefNo)) aesKey 16 with
      | .ok plain => .ok (⟨b64EncodeStd (wrapKey aesKey),
          b64EncodeStd (hexDecode enc.fullCiphertext), reqRefNo⟩, plain)
      | .error e => .error (.decFailed e) := by
  unfold protocolRun
  rw [henc]
  simp only [hcode, if_true]
  cases h : Aes.decryptFullCiphertext (some (b64Decode res.response))
      (some (utf8Str res.respRefNo)) aesKey 16 <;> simp [h]

set_option maxRecDepth 8000 in
/-- Witness for C9 at a concrete session key, reference numbers and response. -/
theorem protocolRun_spec_witness :
    protocolRun (List.replicate 32 0) ("ABCDEF".data) ("x".data) id [] resW =
      match Aes.decryptFullCiphertext (some (b64Decode resW.response))
          (some (utf8Str resW.respRefNo)) (List.replicate 32 0) 16 with
      | .ok plain => .ok (⟨b64EncodeStd (id (List.replicate 32 0)),
          b64EncodeStd (hexDecode encW.fullCiphertext), "ABCDEF".data⟩, plain)
      | .error e => .error (.decFailed e) :=
  protocolRun_spec (List.replicate 32 0) ("ABCDEF".data) ("x".data) id [] resW encW
    rfl (by rfl)

theorem n2le_length (k : Nat) : ∀ n, (n2le k n).length = k := by
  induction k with
  | zero => intro n; rfl
  | succ k ih => intro n; simp [n2le, ih]

theorem n2le_le2n (bs : Bytes) (h : ∀ b ∈ bs, b < 256) : n2le bs.length (le2n bs) = bs := by
  induction bs with
  | nil => rfl
  | cons b bs ih =>
    have hb : b < 256 := h b (by simp)
    have h1 : (b + 256 * le2n bs) % 256 = b := by omega
    have h2 : (b + 256 * le2n bs) / 256 = le2n bs := by omega
    simp only [List.length_cons, n2le, le2n, h1, h2]
    rw [ih fun x hx => h x (by simp [hx])]

theorem le2n_n2le (k : Nat) : ∀ n, n < 256 ^ k → le2n (n2le k n) = n := by
  induction k with
  | zero =>
    intro n h
    simp at h
    simp [h, n2le, le2n]
  | succ k ih =>
    intro n h
    have hdiv : n / 256 < 256 ^ k := by
      rw [Nat.div_lt_iff_lt_mul (by norm_num)]
      calc n < 256 ^ (k + 1) := h
        _ = 256 ^ k * 256 := by ring
    simp only [n2le, le2n, ih _ hdiv]
    omega

theorem le2n_lt (bs : Bytes) (h : ∀ b ∈ bs, b < 256) : le2n bs < 256 ^ bs.length := by
  induction bs with
  | nil => simp [le2n]
  | cons b bs ih =>
    have hb : b < 256 := h b (by simp)
    have ht : le2n bs < 256 ^ bs.length := ih fun x hx => h x (by simp [hx])
    simp only [le2n, List.length_cons]
    calc b + 256 * le2n bs < 256 * (le2n bs + 1) := by omega
      _ ≤ 256 * 256 ^ bs.length := Nat.mul_le_mul_left 256 ht
      _ = 256 ^ (bs.length + 1) := by ring

theorem i2osp_length (k n : Nat) : (i2osp k n).length = k := by
  simp [i2osp, n2le_length]

theorem i2osp_os2ip (bs : Bytes) (h : ∀ b ∈ bs, b < 256) : i2osp bs.length (os2ip bs) = bs := by
  have h1 : n2le bs.reverse.length (le2n bs.reverse) = bs.reverse :=
    n2le_le2n _ fun b hb => h b (List.mem_reverse.mp hb)
  calc i2osp bs.length (os2ip bs)
      = (n2le bs.reverse.length (le2n bs.reverse)).reverse := by
        simp [i2osp, os2ip, List.length_reverse]
    _ = bs.reverse.reverse := by rw [h1]
    _ = bs := List.reverse_reverse bs

theorem os2ip_i2osp (k n : Nat) (h : n < 256 ^ k) : os2ip (i2osp k n) = n := by
  simp [i2osp, os2ip, List.reverse_reverse, le2n_n2le k n h]

theorem os2ip_lt (bs : Bytes) (h : ∀ b ∈ bs, b < 256) : os2ip bs < 256 ^ bs.length := by
  have := le2n_lt bs.reverse fun b hb => h b (List.mem_reverse.mp hb)
  rw [List.length_reverse] at this
  exact this

theorem le2n_append (xs ys : Bytes) : le2n (xs ++ ys) = le2n xs + 256 ^ xs.length * le2n ys := by
  induction xs with
  | nil => simp [le2n]
  | cons x xs ih =>
    simp only [List.cons_append, le2n, List.append_eq, ih, List.length_cons]
    ring

theorem os2ip_cons_zero (rest : Bytes) : os2ip (0 :: rest) = os2ip rest := by
  simp [os2ip, List.reverse_cons, le2n_append, le2n]

theorem powModTR_lt (f : Nat) : ∀ b e acc n, 0 < n → powModTR f b e acc n < n := by
  induction f with
  | zero => intro b e acc n hn; exact Nat.mod_lt _ hn
  | succ f ih =>
    intro b e acc n hn
    simp only [powModTR]
    split
    · exact Nat.mod_lt _ hn
    · split
      · exact ih _ _ _ _ hn
      · exact ih _ _ _ _ hn
      · exact ih _ _ _ _ hn

theorem xorB_length (a b : Bytes) : (xorB a b).length = min a.length b.length := by
  simp [xorB]

theorem xorB_xorB (a b : Bytes) (h : a.length = b.length) : xorB (xorB a b) b = a := by
  induction a generalizing b with
  | nil => simp [xorB]
  | cons x xs ih =>
    cases b with
    | nil => simp at h
    | cons y ys =>
      simp only [xorB, List.zipWith_cons_cons]
      rw [Nat.xor_assoc, Nat.xor_self, Nat.xor_zero]
      have hlen : xs.length = ys.length := by simpa using h
      have := ih ys hlen
      simp only [xorB] at this
      rw [this]

theorem xorB_mem_lt (a b : Bytes) (ha : ∀ x ∈ a, x < 256) (hb : ∀ x ∈ b, x < 256) :
    ∀ x ∈ xorB a b, x < 256 := by
  induction a generalizing b with
  | nil => intro x hx; simp [xorB] at hx
  | cons c cs ih =>
    cases b with
    | nil => intro x hx; simp [xorB] at hx
    | cons d ds =>
      intro x hx
      simp only [xorB, List.zipWith_cons_cons, List.mem_cons] at hx
      rcases hx with rfl | hx
      · have h1 : c < 2 ^ 8 := ha c (by simp)
        have h2 : d < 2 ^ 8 := hb d (by simp)
        simpa using Nat.xor_lt_two_pow h1 h2
      · exact ih ds (fun y hy => ha y (by simp [hy])) (fun y hy => hb y (by simp [hy])) x hx

theorem mgf1_length (seed : Bytes) (len : Nat) : (mgf1 seed len).length = len := by
  simp [mgf1]

theorem mgf1_mem_lt (seed : Bytes) (len : Nat) : ∀ x ∈ mgf1 seed len, x < 256 := by
  intro x hx
  simp only [mgf1, List.mem_map] at hx
  obtain ⟨j, _, hj⟩ := hx
  exact hj ▸ absorb_lt _ _

theorem lhash_length : lhash.length = 32 := by
  simp [lhash, modelHash]

theorem lhash_mem_lt : ∀ x ∈ lhash, x < 256 := by
  intro x hx
  simp only [lhash, modelHash, List.mem_map] at hx
  obtain ⟨j, _, hj⟩ := hx
  exact hj ▸ absorb_lt _ _

theorem powMod_lt (b e n : Nat) (hn : 0 < n) : powMod b e n < n :=
  powModTR_lt e b e 1 n hn

theorem pkcs1Unpad_pad (ps msg : Bytes) (hps : ∀ b ∈ ps, b ≠ 0) (hlen : 8 ≤ ps.length) :
    pkcs1Unpad (pkcs1Pad ps msg) = .ok msg := by
  have hform : pkcs1Pad ps msg = 0 :: 2 :: (ps ++ 0 :: msg) := by simp [pkcs1Pad]
  have hdrop : (ps ++ 0 :: msg).dropWhile (fun b => !(b == 0)) = 0 :: msg := by
    rw [dropWhile_append_run _ ps _ fun c hc => by simp [hps c hc]]
    simp [List.dropWhile_cons]
  have htake : (ps ++ 0 :: msg).takeWhile (fun b => !(b == 0)) = ps := by
    rw [takeWhile_append_run _ ps _ fun c hc => by simp [hps c hc]]
    simp [List.takeWhile_cons]
  rw [hform]
  simp only [pkcs1Unpad, hdrop, htake]
  simp [hlen]

theorem oaepDB_length (kk : Nat) (msg : Bytes) (hfit : msg.length + 66 ≤ kk) :
    (oaepDB kk msg).length = kk - 33 := by
  simp only [oaepDB, List.length_append, lhash_length, List.length_replicate, List.length_cons]
  omega

theorem oaepDB_mem_lt (kk : Nat) (msg : Bytes) (hmb : ∀ b ∈ msg, b < 256) :
    ∀ b ∈ oaepDB kk msg, b < 256 := by
  intro b hb
  simp only [oaepDB, List.mem_append, List.mem_cons, List.mem_replicate] at hb
  rcases hb with (hb | hb) | hb | hb
  · exact lhash_mem_lt b hb
  · omega
  · omega
  · exact hmb b hb

theorem oaepUnpad_oaepEM (kk : Nat) (seed msg : Bytes)
    (hseed : seed.length = 32) (hfit : msg.length + 66 ≤ kk) :
    oaepUnpad kk (oaepEM kk seed msg) = .ok msg := by
  have hdb_len : (oaepDB kk msg).length = kk - 33 := oaepDB_length kk msg hfit
  have hform : oaepEM kk seed msg =
      0 :: (xorB seed (mgf1 (xorB (oaepDB kk msg) (mgf1 seed (kk - 33))) 32) ++
        xorB (oaepDB kk msg) (mgf1 seed (kk - 33))) := rfl
  have hms_len : (xorB seed (mgf1 (xorB (oaepDB kk msg) (mgf1 seed (kk - 33))) 32)).length = 32 := by
    rw [xorB_length, hseed, mgf1_length]
    simp
  rw [hform]
  simp only [oaepUnpad]
  rw [List.take_left' hms_len, List.drop_left' hms_len]
  have hseedrec : xorB (xorB seed (mgf1 (xorB (oaepDB kk msg) (mgf1 seed (kk - 33))) 32))
      (mgf1 (xorB (oaepDB kk msg) (mgf1 seed (kk - 33))) 32) = seed :=
    xorB_xorB _ _ (by rw [hseed, mgf1_length])
  rw [hseedrec]
  have hdbrec : xorB (xorB (oaepDB kk msg) (mgf1 seed (kk - 33))) (mgf1 seed (kk - 33)) =
      oaepDB kk msg :=
    xorB_xorB _ _ (by rw [hdb_len, mgf1_length])
  rw [hdbrec]
  have hdbform : oaepDB kk msg =
      lhash ++ (List.replicate (kk - msg.length - 66) 0 ++ 1 :: msg) := by
    simp [oaepDB, List.append_assoc]
  have htakeL : (oaepDB kk msg).take 32 = lhash := by
    rw [hdbform]
    exact List.take_left' lhash_length
  have hdropL : (oaepDB kk msg).drop 32 = List.replicate (kk - msg.length - 66) 0 ++ 1 :: msg := by
    rw [hdbform]
    exact List.drop_left' lhash_length
  rw [htakeL, hdropL]
  have hdropzeros : (List.replicate (kk - msg.length - 66) 0 ++ 1 :: msg).dropWhile
      (fun b => b == 0) = 1 :: msg := by
    rw [dropWhile_append_run _ _ _ fun c hc => by simp [List.eq_of_mem_replicate hc]]
    simp [List.dropWhile_cons]
  rw [hdropzeros]
  simp

theorem providerRsaDecrypt_inv (scheme : RSAPaddingScheme) (key : RsaKey) (em : Bytes)
    (hn : 0 < key.n) (hn_hi : key.n < 256 ^ key.k) (hlen : em.length = key.k)
    (hbytes : ∀ b ∈ em, b < 256)
    (hinv : powMod (powMod (os2ip em) key.e key.n) key.d key.n = os2ip em) :
    providerRsaDecrypt scheme key (i2osp key.k (powMod (os2ip em) key.e key.n)) =
      match scheme with
      | .PKCS1 => pkcs1Unpad em
      | .OAEP => oaepUnpad key.k em := by
  unfold providerRsaDecrypt
  rw [if_pos (i2osp_length _ _)]
  rw [os2ip_i2osp _ _ (lt_trans (powMod_lt _ _ _ hn) hn_hi), hinv]
  have h2 : i2osp key.k (os2ip em) = em := by
    rw [← hlen]
    exact i2osp_os2ip em hbytes
  rw [h2]

theorem pkcs1Pad_length (ps msg : Bytes) :
    (pkcs1Pad ps msg).length = ps.length + msg.length + 3 := by
  simp [pkcs1Pad]
  omega

theorem pkcs1Pad_mem_lt (ps msg : Bytes) (hps : ∀ b ∈ ps, b < 256) (hmb : ∀ b ∈ msg, b < 256) :
    ∀ b ∈ pkcs1Pad ps msg, b < 256 := by
  intro b hb
  simp only [pkcs1Pad, List.cons_append, List.mem_cons, List.mem_append] at hb
  rcases hb with rfl | rfl | hb | rfl | hb
  · omega
  · omega
  · exact hps b hb
  · omega
  · exact hmb b hb

theorem pkcs1Pad_os2ip_lt (ps msg : Bytes) (key : RsaKey)
    (hps : ∀ b ∈ ps, b < 256) (hmb : ∀ b ∈ msg, b < 256)
    (hlen : (pkcs1Pad ps msg).length = key.k) (hlo : 256 ^ (key.k - 1) ≤ key.n) :
    os2ip (pkcs1Pad ps msg) < key.n := by
  have hform : pkcs1Pad ps msg = 0 :: (2 :: (ps ++ 0 :: msg)) := by simp [pkcs1Pad]
  have hrest : (2 :: (ps ++ 0 :: msg) : Bytes).length = key.k - 1 := by
    rw [hform] at hlen
    simp only [List.length_cons] at hlen ⊢
    omega
  have hrb : ∀ b ∈ (2 :: (ps ++ 0 :: msg) : Bytes), b < 256 := by
    intro b hb
    apply pkcs1Pad_mem_lt ps msg hps hmb
    rw [hform]
    simp [hb]
  calc os2ip (pkcs1Pad ps msg) = os2ip (2 :: (ps ++ 0 :: msg)) := by rw [hform, os2ip_cons_zero]
    _ < 256 ^ (2 :: (ps ++ 0 :: msg) : Bytes).length := os2ip_lt _ hrb
    _ = 256 ^ (key.k - 1) := by rw [hrest]
    _ ≤ key.n := hlo

theorem oaepEM_length (kk : Nat) (seed msg : Bytes) (hseed : seed.length = 32)
    (hfit : msg.length + 66 ≤ kk) : (oaepEM kk seed msg).length = kk := by
  have hdb_len : (oaepDB kk msg).length = kk - 33 := oaepDB_length kk msg hfit
  simp only [oaepEM, List.length_cons, List.length_append, xorB_length, mgf1_length,
    hdb_len, hseed]
  omega

theorem oaepEM_mem_lt (kk : Nat) (seed msg : Bytes) (hsb : ∀ b ∈ seed, b < 256)
    (hmb : ∀ b ∈ msg, b < 256) : ∀ b ∈ oaepEM kk seed msg, b < 256 := by
  intro b hb
  simp only [oaepEM, List.mem_cons, List.mem_append] at hb
  rcases hb with (rfl | hb) | hb
  · omega
  · exact xorB_mem_lt _ _ hsb (mgf1_mem_lt _ _) b hb
  · exact xorB_mem_lt _ _ (oaepDB_mem_lt kk msg hmb) (mgf1_mem_lt _ _) b hb

theorem oaepEM_os2ip_lt (kk : Nat) (seed msg : Bytes) (key : RsaKey) (hkk : kk = key.k)
    (hseed : seed.length = 32) (hsb : ∀ b ∈ seed, b < 256) (hmb : ∀ b ∈ msg, b < 256)
    (hfit : msg.length + 66 ≤ kk) (hlo : 256 ^ (key.k - 1) ≤ key.n) :
    os2ip (oaepEM kk seed msg) < key.n := by
  have hdb_len : (oaepDB kk msg).length = kk - 33 := oaepDB_length kk msg hfit
  have hrest_len : (xorB seed (mgf1 (xorB (oaepDB kk msg) (mgf1 seed (kk - 33))) 32) ++
      xorB (oaepDB kk msg) (mgf1 seed (kk - 33))).length = kk - 1 := by
    simp only [List.length_append, xorB_length, mgf1_length, hdb_len, hseed]
    omega
  have hrb : ∀ b ∈ xorB seed (mgf1 (xorB (oaepDB kk msg) (mgf1 seed (kk - 33))) 32) ++
      xorB (oaepDB kk msg) (mgf1 seed (kk - 33)), b < 256 := by
    intro b hb
    rcases List.mem_append.mp hb with hb | hb
    · exact xorB_mem_lt _ _ hsb (mgf1_mem_lt _ _) b hb
    · exact xorB_mem_lt _ _ (oaepDB_mem_lt kk msg hmb) (mgf1_mem_lt _ _) b hb
  calc os2ip (oaepEM kk seed msg)
      = os2ip (xorB seed (mgf1 (xorB (oaepDB kk msg) (mgf1 seed (kk - 33))) 32) ++
        xorB (oaepDB kk msg) (mgf1 seed (kk - 33))) := os2ip_cons_zero _
    _ < 256 ^ (xorB seed (mgf1 (xorB (oaepDB kk msg) (mgf1 seed (kk - 33))) 32) ++
        xorB (oaepDB kk msg) (mgf1 seed (kk - 33))).length := os2ip_lt _ hrb
    _ = 256 ^ (key.k - 1) := by rw [hrest_len, hkk]
    _ ≤ key.n := hlo

/-- C7: the PKCS1 decrypt path delegates (before any validation) to the second
provider `decryptWithNodeforge` and returns exactly its result on every input;
and for any ciphertext produced by this component's own `encrypt`, both decrypt
paths return the original plaintext bit-for-bit, under both PKCS1 and OAEP,
given provider parsers that agree on the key and an RSA pair that inverts on
the encoded block. -/
theorem rsa_dual_path :
    (∀ (pn pf : Str → Except Str RsaKey) (ct : Bytes) (pem : Str),
      Rsa.decrypt pn pf ct pem .PKCS1 = Rsa.decryptWithNodeforge pf ct pem .PKCS1) ∧
    (∀ (pn pf ppub : Str → Except Str RsaKey) (key : RsaKey) (pubPem privPem : Str)
      (msg ps : Bytes),
      pubPem ≠ [] → privPem ≠ [] →
      ppub pubPem = .ok key → pn privPem = .ok key → pf privPem = .ok key →
      0 < key.n → key.n < 256 ^ key.k →
      (∀ b ∈ msg, b < 256) → (∀ b ∈ ps, 0 < b ∧ b < 256) →
      ps.length + msg.length + 3 = key.k → 8 ≤ ps.length → msg.length + 11 ≤ key.k →
      powMod (powMod (os2ip (pkcs1Pad ps msg)) key.e key.n) key.d key.n =
        os2ip (pkcs1Pad ps msg) →
      ∃ ct, Rsa.encrypt ppub ps msg pubPem false .PKCS1 = .ok (.inr ct) ∧
        Rsa.decrypt pn pf ct privPem .PKCS1 = .ok msg ∧
        Rsa.decryptWithNodeforge pf ct privPem .PKCS1 = .ok msg) ∧
    (∀ (pn pf ppub : Str → Except Str RsaKey) (key : RsaKey) (pubPem privPem : Str)
      (msg seed : Bytes),
      pubPem ≠ [] → privPem ≠ [] →
      ppub pubPem = .ok key → pn privPem = .ok key → pf privPem = .ok key →
      0 < key.n → key.n < 256 ^ key.k →
      (∀ b ∈ msg, b < 256) → seed.length = 32 → (∀ b ∈ seed, b < 256) →
      msg.length + 66 ≤ key.k →
      powMod (powMod (os2ip (oaepEM key.k seed msg)) key.e key.n) key.d key.n =
        os2ip (oaepEM key.k seed msg) →
      ∃ ct, Rsa.encrypt ppub seed msg pubPem false .OAEP = .ok (.inr ct) ∧
        Rsa.decrypt pn pf ct privPem .OAEP = .ok msg ∧
        Rsa.decryptWithNodeforge pf ct privPem .OAEP = .ok msg) := by
  refine ⟨fun pn pf ct pem => rfl, ?_, ?_⟩
  · intro pn pf ppub key pubPem privPem msg ps hpubne hprivne hppub hpn hpf hn hhi hmb hps
      hk3 hps8 hfit hinv
    have hemlen : (pkcs1Pad ps msg).length = key.k := by
      rw [pkcs1Pad_length]
      omega
    have hembytes : ∀ b ∈ pkcs1Pad ps msg, b < 256 :=
      pkcs1Pad_mem_lt ps msg (fun b hb => (hps b hb).2) hmb
    have hunpad : pkcs1Unpad (pkcs1Pad ps msg) = .ok msg :=
      pkcs1Unpad_pad ps msg (fun b hb => by have := (hps b hb).1; omega) hps8
    have hprov : providerRsaDecrypt .PKCS1 key
        (i2osp key.k (powMod (os2ip (pkcs1Pad ps msg)) key.e key.n)) = .ok msg := by
      rw [providerRsaDecrypt_inv .PKCS1 key (pkcs1Pad ps msg) hn hhi hemlen hembytes hinv]
      exact hunpad
    have hforge : Rsa.decryptWithNodeforge pf
        (i2osp key.k (powMod (os2ip (pkcs1Pad ps msg)) key.e key.n)) privPem .PKCS1 = .ok msg := by
      unfold Rsa.decryptWithNodeforge
      rw [if_neg hprivne, hpf]
      simp [hprov]
    refine ⟨i2osp key.k (powMod (os2ip (pkcs1Pad ps msg)) key.e key.n), ?_, hforge, hforge⟩
    unfold Rsa.encrypt
    rw [if_neg hpubne, hppub]
    simp [providerRsaEncrypt, hfit]
  · intro pn pf ppub key pubPem privPem msg seed hpubne hprivne hppub hpn hpf hn hhi hmb hseed
      hsb hfit hinv
    have hemlen : (oaepEM key.k seed msg).length = key.k := oaepEM_length key.k seed msg hseed hfit
    have hembytes : ∀ b ∈ oaepEM key.k seed msg, b < 256 := oaepEM_mem_lt key.k seed msg hsb hmb
    have hunpad : oaepUnpad key.k (oaepEM key.k seed msg) = .ok msg :=
      oaepUnpad_oaepEM key.k seed msg hseed hfit
    have hprov : providerRsaDecrypt .OAEP key
        (i2osp key.k (powMod (os2ip (oaepEM key.k seed msg)) key.e key.n)) = .ok msg := by
      rw [providerRsaDecrypt_inv .OAEP key (oaepEM key.k seed msg) hn hhi hemlen hembytes hinv]
      exact hunpad
    refine ⟨i2osp key.k (powMod (os2ip (oaepEM key.k seed msg)) key.e key.n), ?_, ?_, ?_⟩
    · unfold Rsa.encrypt
      rw [if_neg hpubne, hppub]
      simp [providerRsaEncrypt, hfit]
    · unfold Rsa.decrypt
      rw [if_neg (by simp), if_neg hprivne, hpn]
      simp [hprov]
    · unfold Rsa.decryptWithNodeforge
      rw [if_neg hprivne, hpf]
      simp [hprov]

set_option maxRecDepth 100000 in
/-- Witness for C7: a real 768-bit RSA pair round-trips through both decrypt
paths for a PKCS1 and an OAEP ciphertext produced by `encrypt`. -/
theorem rsa_dual_path_witness :
    (∃ ct, Rsa.encrypt parseW (List.replicate 91 1) [72, 105] ("K".data) false .PKCS1 =
        .ok (.inr ct) ∧
      Rsa.decrypt parseW parseW ct ("K".data) .PKCS1 = .ok [72, 105] ∧
      Rsa.decryptWithNodeforge parseW ct ("K".data) .PKCS1 = .ok [72, 105]) ∧
    (∃ ct, Rsa.encrypt parseW (List.replicate 32 7) [77] ("K".data) false .OAEP =
        .ok (.inr ct) ∧
      Rsa.decrypt parseW parseW ct ("K".data) .OAEP = .ok [77] ∧
      Rsa.decryptWithNodeforge parseW ct ("K".data) .OAEP = .ok [77]) :=
  ⟨rsa_dual_path.2.1 parseW parseW parseW keyW ("K".data) ("K".data) [72, 105]
      (List.replicate 91 1) (by decide) (by decide) rfl rfl rfl (by decide) (by decide)
      (by decide) (by decide) (by decide) (by decide) (by decide) (by decide),
   rsa_dual_path.2.2 parseW parseW parseW keyW ("K".data) ("K".data) [77]
      (List.replicate 32 7) (by decide) (by decide) rfl rfl rfl (by decide) (by decide)
      (by decide) (by decide) (by decide) (by decide) (by decide)⟩
